import Mathlib

/-!
Shallow embedding of the acl-js host-side core (the JS glue around the WASM codec):
the sampling/interpolation engine (src-js/util.js), the compressed-buffer header
parser (src-js/compressed_tracks.js), track/track-array construction validation
(src-js/track.js, acl-encoder/src/track_array.js), the transform track
description validity predicate (src-js/track_desc.js) and the decoder WASM heap
arena (src-js/decoder.js together with the WASMMemory handle class).

JS `number` values that flow through the validated paths are modelled as exact
rationals (`ℚ`): every check the code performs on them (`Number.isInteger`,
comparisons, `Math.floor`, `Math.min`) is exact on the values the claims range
over, and `Number.isFinite` holds of every rational.  NaN and the infinities
are outside the embedding; the claims under study quantify over finite inputs
only.  Machine-word operations (`& 0xFFFF`, `>> 16`, `& ~15`) are translated to
the corresponding arithmetic on `ℕ`/`ℤ` with the 32-bit wrap made explicit
where it matters.
-/

/-- The closed rounding-policy enumeration from src-js/rounding_policy.js.
`isRoundingPolicy` is true exactly of these four values, so the argument is
typed by this enumeration. -/
inductive RoundingPolicy where
  | None
  | Floor
  | Ceil
  | Nearest
deriving DecidableEq

/-- The sample type enumeration from src-js/sample_types.js: QVV (transform)
samples and Float (scalar) samples. -/
inductive SampleType where
  | QVV
  | Float
deriving DecidableEq

/-- The distinct error outcomes of the embedded operations.  Each constructor
corresponds to one `throw` site in the source. -/
inductive Err where
  | invalidNumSamples
  | invalidSampleRate
  | invalidSamplingTime
  | invalidSampleIndices
  | invalidInterpolationAlpha
  | unrecognizedBuffer
  | useAfterFree
  | doubleFree
  | foreignHeap
  | typeNotSampleType
  | typeNumSamplesNotInteger
  | rangeNumSamples
  | rangeSampleRate
  | typeRawDataOffsetNotInteger
  | rangeRawDataOffset
  | typeMetadataOffsetNotInteger
  | rangeMetadataOffset
  | typeNumTracksNotInteger
  | rangeNumTracks
deriving DecidableEq

/-- The result object of the interpolation engine (`result` in
findLinearInterpolationSamplesWithSampleRate, src-js/util.js lines 62-79). -/
structure InterpolationData where
  sampleIndex0 : ℚ
  sampleIndex1 : ℚ
  interpolationAlpha : ℚ
deriving DecidableEq

/-- findLinearInterpolationSamplesWithSampleRate from src-js/util.js lines
31-82, translated check for check.  `Number.isInteger(numSamples)` becomes
`numSamples.den = 1`; `Math.floor` becomes `Int.floor`; the JS literal `0.5`
is exactly `1/2`.  The rounding-policy argument is already typed by the closed
enumeration, so the `isRoundingPolicy` type check cannot fail. -/
def findLinearInterpolationSamplesWithSampleRate (numSamples sampleRate sampleTime : ℚ)
    (roundingPolicy : RoundingPolicy) : Except Err InterpolationData :=
  if numSamples.den ≠ 1 ∨ numSamples < 0 then .error .invalidNumSamples
  else if sampleRate < 0 then .error .invalidSampleRate
  else if sampleTime < 0 then .error .invalidSamplingTime
  else
    let sampleIndex : ℚ := sampleTime * sampleRate
    let sampleIndex0 : ℚ := (⌊sampleIndex⌋ : ℚ)
    let sampleIndex1 : ℚ := min (sampleIndex0 + 1) (numSamples - 1)
    if sampleIndex0 > sampleIndex1 ∨ sampleIndex1 ≥ numSamples then .error .invalidSampleIndices
    else
      let interpolationAlpha : ℚ := sampleIndex - sampleIndex0
      if interpolationAlpha < 0 ∨ interpolationAlpha > 1 then .error .invalidInterpolationAlpha
      else
        .ok { sampleIndex0 := sampleIndex0
              sampleIndex1 := sampleIndex1
              interpolationAlpha :=
                match roundingPolicy with
                | RoundingPolicy.None => interpolationAlpha
                | RoundingPolicy.Floor => 0
                | RoundingPolicy.Ceil => 1
                | RoundingPolicy.Nearest => (⌊interpolationAlpha + 1/2⌋ : ℚ) }

/-- The interpolation alpha the engine assigns for a given policy and raw
alpha (the `switch` on lines 66-79 of src-js/util.js). -/
def policyAlpha (roundingPolicy : RoundingPolicy) (rawAlpha : ℚ) : ℚ :=
  match roundingPolicy with
  | RoundingPolicy.None => rawAlpha
  | RoundingPolicy.Floor => 0
  | RoundingPolicy.Ceil => 1
  | RoundingPolicy.Nearest => (⌊rawAlpha + 1/2⌋ : ℚ)

/-- C4: on valid input (at least one sample, non-negative rate and time, time
within the clip: sampleTime * sampleRate ≤ sampleCount - 1), the engine
succeeds and returns sampleIndex0 = floor(sampleTime * sampleRate),
sampleIndex1 = min(sampleIndex0 + 1, sampleCount - 1) — an index pair that does
not depend on the rounding policy — and an alpha equal to the raw fractional
part for None, 0 for Floor, 1 for Ceil and floor(rawAlpha + 1/2) ∈ {0, 1} for
Nearest, the raw alpha lying in [0, 1]. -/
theorem sampling_interpolation_spec (n : ℤ) (r t : ℚ) (p : RoundingPolicy)
    (hn : 1 ≤ n) (hr : 0 ≤ r) (ht : 0 ≤ t) (hb : t * r ≤ (n : ℚ) - 1) :
    findLinearInterpolationSamplesWithSampleRate (n : ℚ) r t p =
      .ok { sampleIndex0 := (⌊t * r⌋ : ℚ)
            sampleIndex1 := min ((⌊t * r⌋ : ℚ) + 1) ((n : ℚ) - 1)
            interpolationAlpha := policyAlpha p (t * r - (⌊t * r⌋ : ℚ)) } ∧
    0 ≤ t * r - (⌊t * r⌋ : ℚ) ∧ t * r - (⌊t * r⌋ : ℚ) ≤ 1 ∧
    (policyAlpha RoundingPolicy.Nearest (t * r - (⌊t * r⌋ : ℚ)) = 0 ∨
     policyAlpha RoundingPolicy.Nearest (t * r - (⌊t * r⌋ : ℚ)) = 1) := by
  have hden : ((n : ℚ)).den = 1 := Rat.den_intCast n
  have hn0 : (0 : ℚ) ≤ (n : ℚ) := by exact_mod_cast (by omega : (0 : ℤ) ≤ n)
  have hrt : 0 ≤ t * r := mul_nonneg ht hr
  have hfl : (0 : ℚ) ≤ (⌊t * r⌋ : ℚ) := by
    exact_mod_cast Int.floor_nonneg.mpr hrt
  have hfl_le : (⌊t * r⌋ : ℚ) ≤ (n : ℚ) - 1 := by
    have : (⌊t * r⌋ : ℚ) ≤ t * r := Int.floor_le _
    linarith
  have hmin_le : min ((⌊t * r⌋ : ℚ) + 1) ((n : ℚ) - 1) ≤ (n : ℚ) - 1 := min_le_right _ _
  have hle_min : (⌊t * r⌋ : ℚ) ≤ min ((⌊t * r⌋ : ℚ) + 1) ((n : ℚ) - 1) :=
    le_min (by linarith) hfl_le
  have hfrac0 : 0 ≤ t * r - (⌊t * r⌋ : ℚ) := by
    have := Int.floor_le (t * r)
    linarith
  have hfrac1 : t * r - (⌊t * r⌋ : ℚ) < 1 := by
    have := Int.lt_floor_add_one (t * r)
    linarith
  refine ⟨?_, hfrac0, le_of_lt hfrac1, ?_⟩
  · unfold findLinearInterpolationSamplesWithSampleRate
    rw [if_neg (by push_neg; exact ⟨hden, not_lt.mp (not_lt.mpr hn0)⟩)]
    rw [if_neg (not_lt.mpr hr), if_neg (not_lt.mpr ht)]
    rw [if_neg (by
      push_neg
      exact ⟨not_lt.mp (not_lt.mpr hle_min), by linarith [hmin_le]⟩)]
    rw [if_neg (by
      push_neg
      exact ⟨not_lt.mp (not_lt.mpr hfrac0), le_of_lt hfrac1⟩)]
    rcases p with _ | _ | _ | _ <;> rfl
  · have h1 : (0 : ℚ) ≤ t * r - (⌊t * r⌋ : ℚ) + 1/2 := by linarith
    have h2 : t * r - (⌊t * r⌋ : ℚ) + 1/2 < 2 := by linarith
    have hge : (0 : ℤ) ≤ ⌊t * r - (⌊t * r⌋ : ℚ) + 1/2⌋ := Int.floor_nonneg.mpr h1
    have hlt : ⌊t * r - (⌊t * r⌋ : ℚ) + 1/2⌋ < 2 := by
      have := Int.floor_le_floor (α := ℚ) (le_of_lt h2)
      have h2' : ⌊t * r - (⌊t * r⌋ : ℚ) + 1/2⌋ < (2 : ℤ) := by
        rw [Int.floor_lt]
        exact_mod_cast h2
      exact h2'
    have hcases : ⌊t * r - (⌊t * r⌋ : ℚ) + 1/2⌋ = 0 ∨ ⌊t * r - (⌊t * r⌋ : ℚ) + 1/2⌋ = 1 := by
      omega
    unfold policyAlpha
    rcases hcases with hc | hc
    · left; rw [hc]; norm_num
    · right; rw [hc]; norm_num

/-- Witness for C4 at sampleCount = 3, sampleRate = 30, sampleTime = 1/30,
policy None. -/
theorem sampling_interpolation_spec_witness :
    (1 ≤ (3 : ℤ)) ∧ ((0 : ℚ) ≤ 30) ∧ ((0 : ℚ) ≤ 1/30) ∧ ((1/30 : ℚ) * 30 ≤ (3 : ℚ) - 1) ∧
    (findLinearInterpolationSamplesWithSampleRate ((3 : ℤ) : ℚ) 30 (1/30) RoundingPolicy.None =
      .ok { sampleIndex0 := (⌊(1/30 : ℚ) * 30⌋ : ℚ)
            sampleIndex1 := min ((⌊(1/30 : ℚ) * 30⌋ : ℚ) + 1) (((3 : ℤ) : ℚ) - 1)
            interpolationAlpha :=
              policyAlpha RoundingPolicy.None ((1/30 : ℚ) * 30 - (⌊(1/30 : ℚ) * 30⌋ : ℚ)) } ∧
     0 ≤ (1/30 : ℚ) * 30 - (⌊(1/30 : ℚ) * 30⌋ : ℚ) ∧
     (1/30 : ℚ) * 30 - (⌊(1/30 : ℚ) * 30⌋ : ℚ) ≤ 1 ∧
     (policyAlpha RoundingPolicy.Nearest ((1/30 : ℚ) * 30 - (⌊(1/30 : ℚ) * 30⌋ : ℚ)) = 0 ∨
      policyAlpha RoundingPolicy.Nearest ((1/30 : ℚ) * 30 - (⌊(1/30 : ℚ) * 30⌋ : ℚ)) = 1)) :=
  ⟨by norm_num, by norm_num, by norm_num, by norm_num,
   sampling_interpolation_spec 3 30 (1/30) RoundingPolicy.None (by norm_num) (by norm_num)
     (by norm_num) (by norm_num)⟩

/-- C5: the engine rejects an empty track — with sampleCount = 0 it fails with
an error for every sample rate, sample time and policy — and it rejects every
negative sample time for every sampleCount, sampleRate and policy; in neither
case does it return a result. -/
theorem sampling_error_cases :
    (∀ (r t : ℚ) (p : RoundingPolicy),
      ∃ e, findLinearInterpolationSamplesWithSampleRate 0 r t p = .error e) ∧
    (∀ (n r t : ℚ) (p : RoundingPolicy), t < 0 →
      ∃ e, findLinearInterpolationSamplesWithSampleRate n r t p = .error e) := by
  constructor
  · intro r t p
    unfold findLinearInterpolationSamplesWithSampleRate
    rw [if_neg (by norm_num)]
    by_cases hr : r < 0
    · exact ⟨.invalidSampleRate, by rw [if_pos hr]⟩
    · rw [if_neg hr]
      by_cases ht : t < 0
      · exact ⟨.invalidSamplingTime, by rw [if_pos ht]⟩
      · rw [if_neg ht]
        refine ⟨.invalidSampleIndices, ?_⟩
        rw [if_pos ?_]
        left
        have hrt : 0 ≤ t * r := mul_nonneg (not_lt.mp ht) (not_lt.mp hr)
        have hfl : (0 : ℚ) ≤ (⌊t * r⌋ : ℚ) := by exact_mod_cast Int.floor_nonneg.mpr hrt
        have : min ((⌊t * r⌋ : ℚ) + 1) ((0 : ℚ) - 1) = (0 : ℚ) - 1 := by
          apply min_eq_right
          linarith
        rw [this]
        linarith
  · intro n r t p ht
    unfold findLinearInterpolationSamplesWithSampleRate
    by_cases hn : n.den ≠ 1 ∨ n < 0
    · exact ⟨.invalidNumSamples, by rw [if_pos hn]⟩
    · rw [if_neg hn]
      by_cases hr : r < 0
      · exact ⟨.invalidSampleRate, by rw [if_pos hr]⟩
      · rw [if_neg hr]
        exact ⟨.invalidSamplingTime, by rw [if_pos ht]⟩

/-- Witness for C5: sampleCount = 0 fails, and sampleTime = -1 fails. -/
theorem sampling_error_cases_witness :
    (∃ e, findLinearInterpolationSamplesWithSampleRate 0 30 (1/2) RoundingPolicy.None = .error e) ∧
    ((-1 : ℚ) < 0 ∧
      ∃ e, findLinearInterpolationSamplesWithSampleRate 3 30 (-1) RoundingPolicy.Ceil = .error e) :=
  ⟨sampling_error_cases.1 30 (1/2) RoundingPolicy.None,
   by norm_num, sampling_error_cases.2 3 30 (-1) RoundingPolicy.Ceil (by norm_num)⟩

/-- Byte access into a compressed buffer, modelled as a list of byte values. -/
def byteAt (buf : List ℕ) (i : ℕ) : ℕ := buf.getD i 0

/-- The i-th 32-bit little-endian word of the buffer, as read through the
`Uint32Array` views the CompressedTracks constructor creates. -/
def word32 (buf : List ℕ) (i : ℕ) : ℕ :=
  byteAt buf (4 * i) + 2 ^ 8 * byteAt buf (4 * i + 1) +
    2 ^ 16 * byteAt buf (4 * i + 2) + 2 ^ 24 * byteAt buf (4 * i + 3)

/-- Reinterpret an unsigned 32-bit word as a signed Int32, as the JS `>>`
operator does before shifting. -/
def toInt32 (w : ℕ) : ℤ :=
  if w % 2 ^ 32 < 2 ^ 31 then (w % 2 ^ 32 : ℕ) else (w % 2 ^ 32 : ℕ) - 2 ^ 32

/-- The JS signed right shift `w >> k` on a 32-bit word: arithmetic shift,
i.e. floor division of the Int32 value by 2^k. -/
def jsShr32 (w k : ℕ) : ℤ := Int.fdiv (toInt32 w) (2 ^ k)

/-- The parsed fields the CompressedTracks constructor stores on the new
object.  The legacy whole-clip branch sets numSegments and hasScale; the
track-list branch does not, which the embedding records with `Option`. -/
structure CompressedTracksInfo where
  version : ℕ
  numTracks : ℕ
  numSegments : Option ℤ
  hasScale : Option ℤ
  numSamplesPerTrack : ℕ
  outputBufferSize : ℕ
  sampleSize : ℕ
  sampleType : SampleType
deriving DecidableEq

/-- The CompressedTracks constructor header parse,
src-js/compressed_tracks.js lines 144-187: word 2 of the buffer selects the
legacy whole-clip format (tag 0xac10ac10), the track-list format
(tag 0xac11ac11), or the unrecognized-buffer error. -/
def compressedTracksParse (buf : List ℕ) : Except Err CompressedTracksInfo :=
  if word32 buf 2 = 0xac10ac10 then
    .ok { version := word32 buf 3 % 2 ^ 16
          numTracks := word32 buf 4 % 2 ^ 16
          numSegments := some (jsShr32 (word32 buf 4) 16)
          hasScale := some (jsShr32 (word32 buf 5) 24)
          numSamplesPerTrack := word32 buf 7
          outputBufferSize := (word32 buf 4 % 2 ^ 16) * 12 * 4
          sampleSize := 12 * 4
          sampleType := SampleType.QVV }
  else if word32 buf 2 = 0xac11ac11 then
    .ok { version := word32 buf 3 % 2 ^ 16
          numTracks := word32 buf 4
          numSegments := Option.none
          hasScale := Option.none
          numSamplesPerTrack := word32 buf 5
          outputBufferSize := word32 buf 4 * 4
          sampleSize := 4
          sampleType := SampleType.Float }
  else .error .unrecognizedBuffer

/-- C6: for a buffer of sufficient length, the constructor dispatches on the
third little-endian word: tag 0xac10ac10 parses the legacy whole-clip format
(version and numTracks from the low 16 bits of words 3 and 4, QVV a.k.a.
Transform samples, sampleSize 48, output buffer numTracks * 12 * 4 bytes);
tag 0xac11ac11 parses the track-list format (version from the low 16 bits of
word 3, numTracks the whole of word 4, Float a.k.a. Scalar samples,
sampleSize 4, output buffer numTracks * 4 bytes); any other word 2 fails with
the unrecognized-format error and no parsed object is produced. -/
theorem compressed_tracks_header_parse (buf : List ℕ) (hlen : 36 ≤ buf.length) :
    (word32 buf 2 = 0xac10ac10 →
      compressedTracksParse buf =
        .ok { version := word32 buf 3 % 2 ^ 16
              numTracks := word32 buf 4 % 2 ^ 16
              numSegments := some (jsShr32 (word32 buf 4) 16)
              hasScale := some (jsShr32 (word32 buf 5) 24)
              numSamplesPerTrack := word32 buf 7
              outputBufferSize := (word32 buf 4 % 2 ^ 16) * 12 * 4
              sampleSize := 48
              sampleType := SampleType.QVV }) ∧
    (word32 buf 2 = 0xac11ac11 →
      compressedTracksParse buf =
        .ok { version := word32 buf 3 % 2 ^ 16
              numTracks := word32 buf 4
              numSegments := Option.none
              hasScale := Option.none
              numSamplesPerTrack := word32 buf 5
              outputBufferSize := word32 buf 4 * 4
              sampleSize := 4
              sampleType := SampleType.Float }) ∧
    (word32 buf 2 ≠ 0xac10ac10 → word32 buf 2 ≠ 0xac11ac11 →
      compressedTracksParse buf = .error .unrecognizedBuffer) := by
  refine ⟨?_, ?_, ?_⟩
  · intro h
    unfold compressedTracksParse
    rw [if_pos h]
  · intro h
    unfold compressedTracksParse
    rw [if_neg (by rw [h]; norm_num), if_pos h]
  · intro h1 h2
    unfold compressedTracksParse
    rw [if_neg h1, if_neg h2]

/-- A concrete 36-byte buffer whose word 2 is the legacy tag 0xac10ac10 and
whose word 3 holds version 5 in its low 16 bits. -/
def legacyTagBuffer : List ℕ :=
  [0, 0, 0, 0,  0, 0, 0, 0,  0x10, 0xac, 0x10, 0xac,  5, 0, 0, 0,
   2, 0, 1, 0,  0, 0, 0, 0,  0, 0, 0, 0,  3, 0, 0, 0,  0, 0, 0, 0]

/-- Witness for C6: the legacy branch of the parse theorem at a concrete
buffer. -/
theorem compressed_tracks_header_parse_witness :
    36 ≤ legacyTagBuffer.length ∧ word32 legacyTagBuffer 2 = 0xac10ac10 ∧
    compressedTracksParse legacyTagBuffer =
      .ok { version := word32 legacyTagBuffer 3 % 2 ^ 16
            numTracks := word32 legacyTagBuffer 4 % 2 ^ 16
            numSegments := some (jsShr32 (word32 legacyTagBuffer 4) 16)
            hasScale := some (jsShr32 (word32 legacyTagBuffer 5) 24)
            numSamplesPerTrack := word32 legacyTagBuffer 7
            outputBufferSize := (word32 legacyTagBuffer 4 % 2 ^ 16) * 12 * 4
            sampleSize := 48
            sampleType := SampleType.QVV } :=
  ⟨by decide, by decide,
   (compressed_tracks_header_parse legacyTagBuffer (by decide)).1 (by decide)⟩

/-- The `isSampleType` check from src-js/sample_types.js: a JS value is either
one of the two SampleType members (`some`) or any other value (`none`). -/
def isSampleType (sampleType : Option SampleType) : Bool := sampleType.isSome

/-- The argument-validation chain of the Track constructor,
src-js/track.js lines 50-89, check for check and in source order.  The
Float64Array arguments are represented by their lengths; `Number.isInteger`
becomes `den = 1`, and `Number.isFinite` holds of every rational. -/
def trackConstructorValidate (sampleType : Option SampleType) (numSamples sampleRate : ℚ)
    (rawDataLen : ℕ) (rawDataOffset : ℚ) (metadataLen : ℕ) (metadataOffset : ℚ) :
    Except Err Unit :=
  if ¬ isSampleType sampleType then .error .typeNotSampleType
  else if numSamples.den ≠ 1 then .error .typeNumSamplesNotInteger
  else if numSamples < 0 ∨ numSamples > 2 ^ 24 then .error .rangeNumSamples
  else if sampleRate < 0 ∨ sampleRate ≥ 10000 then .error .rangeSampleRate
  else if rawDataOffset.den ≠ 1 then .error .typeRawDataOffsetNotInteger
  else if rawDataOffset < 0 ∨ rawDataOffset ≥ (rawDataLen : ℚ) then .error .rangeRawDataOffset
  else if metadataOffset.den ≠ 1 then .error .typeMetadataOffsetNotInteger
  else if metadataOffset < 0 ∨ metadataOffset ≥ (metadataLen : ℚ) then .error .rangeMetadataOffset
  else .ok ()

/-- The argument-validation chain of the TrackArray constructor,
acl-encoder/src/track_array.js lines 38-61, in source order. -/
def trackArrayConstructorValidate (numTracks : ℚ) (sampleType : Option SampleType)
    (numSamplesPerTrack sampleRate : ℚ) : Except Err Unit :=
  if numTracks.den ≠ 1 then .error .typeNumTracksNotInteger
  else if numTracks < 0 ∨ numTracks > 2 ^ 24 then .error .rangeNumTracks
  else if ¬ isSampleType sampleType then .error .typeNotSampleType
  else if numSamplesPerTrack.den ≠ 1 then .error .typeNumSamplesNotInteger
  else if numSamplesPerTrack < 0 ∨ numSamplesPerTrack > 2 ^ 24 then .error .rangeNumSamples
  else if sampleRate < 0 ∨ sampleRate ≥ 10000 then .error .rangeSampleRate
  else .ok ()

/-- C7: with well-formed buffer arguments, the Track constructor validation
accepts an integer sample count exactly when it lies in [0, 2^24] and a finite
sample rate exactly when it lies in [0, 10000), failing with the matching
RangeError otherwise; sampleRate = 10000 (the exclusive bound) is rejected; a
value outside the closed sample-type set is rejected; and the TrackArray
constructor validation accepts trackCount, sampleCount and sampleRate on
exactly the same ranges. -/
theorem track_validation_ranges :
    (∀ (st : SampleType) (n : ℤ) (r : ℚ) (rawLen metaLen : ℕ),
      0 < rawLen → 0 < metaLen →
      (trackConstructorValidate (some st) (n : ℚ) r rawLen 0 metaLen 0 = .ok () ↔
        0 ≤ n ∧ n ≤ 2 ^ 24 ∧ 0 ≤ r ∧ r < 10000)) ∧
    (∀ (st : SampleType) (n : ℤ) (r : ℚ) (rawLen metaLen : ℕ),
      (n < 0 ∨ 2 ^ 24 < n) →
      trackConstructorValidate (some st) (n : ℚ) r rawLen 0 metaLen 0 = .error .rangeNumSamples) ∧
    (∀ (st : SampleType) (n : ℤ) (r : ℚ) (rawLen metaLen : ℕ),
      0 ≤ n → n ≤ 2 ^ 24 → (r < 0 ∨ 10000 ≤ r) →
      trackConstructorValidate (some st) (n : ℚ) r rawLen 0 metaLen 0 = .error .rangeSampleRate) ∧
    (∀ (st : SampleType) (n : ℤ) (rawLen metaLen : ℕ),
      0 ≤ n → n ≤ 2 ^ 24 →
      trackConstructorValidate (some st) (n : ℚ) 10000 rawLen 0 metaLen 0 =
        .error .rangeSampleRate) ∧
    (∀ (n r : ℚ) (rawLen metaLen : ℕ),
      trackConstructorValidate Option.none n r rawLen 0 metaLen 0 = .error .typeNotSampleType) ∧
    (∀ (c : ℤ) (st : SampleType) (n : ℤ) (r : ℚ),
      (trackArrayConstructorValidate (c : ℚ) (some st) (n : ℚ) r = .ok () ↔
        0 ≤ c ∧ c ≤ 2 ^ 24 ∧ 0 ≤ n ∧ n ≤ 2 ^ 24 ∧ 0 ≤ r ∧ r < 10000)) := by
  have hint : ∀ m : ℤ, ((m : ℚ)).den = 1 := fun m => Rat.den_intCast m
  have hcast : ∀ m : ℤ, ((m : ℚ) < 0 ∨ (m : ℚ) > 2 ^ 24) ↔ (m < 0 ∨ 2 ^ 24 < m) := by
    intro m
    constructor
    · rintro (h | h)
      · left; exact_mod_cast h
      · right; exact_mod_cast h
    · rintro (h | h)
      · left; exact_mod_cast h
      · right; exact_mod_cast h
  refine ⟨?_, ?_, ?_, ?_, ?_, ?_⟩
  · intro st n r rawLen metaLen hraw hmeta
    unfold trackConstructorValidate
    rw [if_neg (by simp [isSampleType]), if_neg (by simp [hint])]
    constructor
    · intro h
      by_cases h1 : (n : ℚ) < 0 ∨ (n : ℚ) > 2 ^ 24
      · rw [if_pos h1] at h; exact absurd h (by simp)
      · rw [if_neg h1] at h
        by_cases h2 : r < 0 ∨ r ≥ 10000
        · rw [if_pos h2] at h; exact absurd h (by simp)
        · push_neg at h1 h2
          refine ⟨by exact_mod_cast h1.1, by exact_mod_cast h1.2, h2.1, h2.2⟩
    · rintro ⟨hn0, hn1, hr0, hr1⟩
      rw [if_neg (by push_neg; exact ⟨by exact_mod_cast hn0, by exact_mod_cast hn1⟩)]
      rw [if_neg (by push_neg; exact ⟨hr0, hr1⟩)]
      rw [if_neg (by simp [Rat.den_ofNat]), if_neg (by push_neg; constructor <;> simp [hraw])]
      rw [if_neg (by simp [Rat.den_ofNat]), if_neg (by push_neg; constructor <;> simp [hmeta])]
  · intro st n r rawLen metaLen hout
    unfold trackConstructorValidate
    rw [if_neg (by simp [isSampleType]), if_neg (by simp [hint])]
    rw [if_pos ((hcast n).mpr hout)]
  · intro st n r rawLen metaLen hn0 hn1 hr
    unfold trackConstructorValidate
    rw [if_neg (by simp [isSampleType]), if_neg (by simp [hint])]
    rw [if_neg (by
      rw [hcast n]
      push_neg
      exact ⟨hn0, hn1⟩)]
    rw [if_pos (by
      rcases hr with h | h
      · exact Or.inl h
      · exact Or.inr h)]
  · intro st n rawLen metaLen hn0 hn1
    unfold trackConstructorValidate
    rw [if_neg (by simp [isSampleType]), if_neg (by simp [hint])]
    rw [if_neg (by
      rw [hcast n]
      push_neg
      exact ⟨hn0, hn1⟩)]
    rw [if_pos (by norm_num)]
  · intro n r rawLen metaLen
    unfold trackConstructorValidate
    rw [if_pos (by simp [isSampleType])]
  · intro c st n r
    unfold trackArrayConstructorValidate
    rw [if_neg (by simp [hint])]
    constructor
    · intro h
      by_cases h1 : (c : ℚ) < 0 ∨ (c : ℚ) > 2 ^ 24
      · rw [if_pos h1] at h; exact absurd h (by simp)
      · rw [if_neg h1] at h
        rw [if_neg (by simp [isSampleType]), if_neg (by simp [hint])] at h
        by_cases h2 : (n : ℚ) < 0 ∨ (n : ℚ) > 2 ^ 24
        · rw [if_pos h2] at h; exact absurd h (by simp)
        · rw [if_neg h2] at h
          by_cases h3 : r < 0 ∨ r ≥ 10000
          · rw [if_pos h3] at h; exact absurd h (by simp)
          · push_neg at h1 h2 h3
            exact ⟨by exact_mod_cast h1.1, by exact_mod_cast h1.2,
              by exact_mod_cast h2.1, by exact_mod_cast h2.2, h3.1, h3.2⟩
    · rintro ⟨hc0, hc1, hn0, hn1, hr0, hr1⟩
      rw [if_neg (by push_neg; exact ⟨by exact_mod_cast hc0, by exact_mod_cast hc1⟩)]
      rw [if_neg (by simp [isSampleType]), if_neg (by simp [hint])]
      rw [if_neg (by push_neg; exact ⟨by exact_mod_cast hn0, by exact_mod_cast hn1⟩)]
      rw [if_neg (by push_neg; exact ⟨hr0, hr1⟩)]

/-- Witness for C7: concrete instances of each conjunct, including the
rejection of sampleRate = 10000 and of a non-SampleType argument. -/
theorem track_validation_ranges_witness :
    (0 < 10 ∧ 0 < 10 ∧
      (trackConstructorValidate (some SampleType.QVV) ((3 : ℤ) : ℚ) 30 10 0 10 0 = .ok () ↔
        0 ≤ (3 : ℤ) ∧ (3 : ℤ) ≤ 2 ^ 24 ∧ (0 : ℚ) ≤ 30 ∧ (30 : ℚ) < 10000)) ∧
    (((-1 : ℤ) < 0 ∨ 2 ^ 24 < (-1 : ℤ)) ∧
      trackConstructorValidate (some SampleType.QVV) ((-1 : ℤ) : ℚ) 30 10 0 10 0 =
        .error .rangeNumSamples) ∧
    (0 ≤ (3 : ℤ) ∧ (3 : ℤ) ≤ 2 ^ 24 ∧
      trackConstructorValidate (some SampleType.Float) ((3 : ℤ) : ℚ) 10000 10 0 10 0 =
        .error .rangeSampleRate) ∧
    trackConstructorValidate Option.none 3 30 10 0 10 0 = .error .typeNotSampleType ∧
    (trackArrayConstructorValidate ((2 : ℤ) : ℚ) (some SampleType.QVV) ((3 : ℤ) : ℚ) 30 = .ok () ↔
      0 ≤ (2 : ℤ) ∧ (2 : ℤ) ≤ 2 ^ 24 ∧ 0 ≤ (3 : ℤ) ∧ (3 : ℤ) ≤ 2 ^ 24 ∧
        (0 : ℚ) ≤ 30 ∧ (30 : ℚ) < 10000) :=
  ⟨⟨by norm_num, by norm_num,
    track_validation_ranges.1 SampleType.QVV 3 30 10 10 (by norm_num) (by norm_num)⟩,
   ⟨by norm_num, track_validation_ranges.2.1 SampleType.QVV (-1) 30 10 10 (by norm_num)⟩,
   ⟨by norm_num, by norm_num,
    track_validation_ranges.2.2.2.1 SampleType.Float 3 10 10 (by norm_num) (by norm_num)⟩,
   track_validation_ranges.2.2.2.2.1 3 30 10 10,
   track_validation_ranges.2.2.2.2.2 2 SampleType.QVV 3 30⟩

/-- The fields of a TransformTrackDescription
(src-js/track_desc.js lines 115-309). -/
structure TransformTrackDescriptionFields where
  outputIndex : ℚ
  parentIndex : ℚ
  precision : ℚ
  shellDistance : ℚ
  constantRotationThresholdAngle : ℚ
  constantTranslationThreshold : ℚ
  constantScaleThreshold : ℚ
deriving DecidableEq

/-- TransformTrackDescription.isValid from src-js/track_desc.js lines 278-308,
translated guard for guard.  Note that the second guard (line 283) tests
`Number.isInteger(this._outputIndex)` — the outputIndex field again — while
range-checking `this._parentIndex`; the embedding reproduces that test
verbatim. -/
def transformDescIsValid (d : TransformTrackDescriptionFields) : Bool :=
  if d.outputIndex.den ≠ 1 ∨ d.outputIndex < 0 ∨ d.outputIndex ≥ 65535 then false
  else if d.outputIndex.den ≠ 1 ∨ d.parentIndex < -1 ∨ d.parentIndex ≥ 65535 then false
  else if d.precision < 0 ∨ d.precision ≥ 100 then false
  else if d.shellDistance < 0 ∨ d.shellDistance ≥ 10000 then false
  else if d.constantRotationThresholdAngle < 0 ∨ d.constantRotationThresholdAngle ≥ 100 then false
  else if d.constantTranslationThreshold < 0 ∨ d.constantTranslationThreshold ≥ 100 then false
  else if d.constantScaleThreshold < 0 ∨ d.constantScaleThreshold ≥ 100 then false
  else true

/-- A transform descriptor whose parentIndex is the non-integer 1/2 while
every other field is in range (the remaining fields are the constructor
defaults of src-js/track_desc.js lines 139-146, with precision written
exactly). -/
def halfParentDesc : TransformTrackDescriptionFields :=
  { outputIndex := 0
    parentIndex := 1/2
    precision := 1/10000
    shellDistance := 1
    constantRotationThresholdAngle := 284714461/100000000000
    constantTranslationThreshold := 1/100000
    constantScaleThreshold := 1/100000 }

/-- C8 (code bug evidence): isValid accepts a descriptor whose parentIndex is
the non-integer 1/2 with every other field in range, because the guard on
line 283 of src-js/track_desc.js re-checks integrality of outputIndex instead
of parentIndex.  The claim (and the spec: parentIndex is uint16 or -1)
requires such a descriptor to be reported invalid. -/
theorem transform_desc_parent_index_bug :
    transformDescIsValid halfParentDesc = true ∧ (1/2 : ℚ).den ≠ 1 := by
  constructor
  · unfold transformDescIsValid halfParentDesc
    rw [if_neg (by push_neg; exact ⟨by simp [Rat.den_ofNat], by norm_num, by norm_num⟩)]
    rw [if_neg (by push_neg; exact ⟨by simp [Rat.den_ofNat], by norm_num, by norm_num⟩)]
    rw [if_neg (by push_neg; exact ⟨by norm_num, by norm_num⟩)]
    rw [if_neg (by push_neg; exact ⟨by norm_num, by norm_num⟩)]
    rw [if_neg (by push_neg; exact ⟨by norm_num, by norm_num⟩)]
    rw [if_neg (by push_neg; exact ⟨by norm_num, by norm_num⟩)]
    rw [if_neg (by push_neg; exact ⟨by norm_num, by norm_num⟩)]
  · intro h
    have h2 : (((1/2 : ℚ).num : ℚ)) = 1/2 := (Rat.den_eq_one_iff _).mp h
    have h3 : ((2 * (1/2 : ℚ).num : ℤ) : ℚ) = 1 := by push_cast; rw [h2]; ring
    have h4 : (2 * (1/2 : ℚ).num : ℤ) = 1 := by exact_mod_cast h3
    omega

/-- JS `>=` comparison whose right operand may be `undefined`: `x >= undefined`
coerces `undefined` to NaN, so the comparison is always false. -/
def jsGe (x : ℚ) (y : Option ℚ) : Bool :=
  match y with
  | some q => decide (x ≥ q)
  | Option.none => false

/-- The `this._numTracks` field read by Decoder.decompressTrack (line 241 of
src-js/decoder.js).  The Decoder constructor (lines 59-83) assigns only
`this._state`, so the field is never set and reads as `undefined`. -/
def decoderNumTracksField : Option ℚ := Option.none

/-- The track-index validation of Decoder.decompressTrack, lines 241-243:
`!Number.isInteger(trackIndex) || trackIndex < 0 || trackIndex >= this._numTracks`
throws a RangeError when true. -/
def decompressTrackIndexCheckThrows (trackIndex : ℚ) : Bool :=
  !(trackIndex.den = 1 : Bool) || decide (trackIndex < 0) || jsGe trackIndex decoderNumTracksField

/-- C9: the decompressTrack index validation throws exactly for a non-integer
or negative trackIndex; every integer trackIndex ≥ 0 passes, however large,
because the upper-bound comparison is against the undefined field
this._numTracks and such a comparison is always false — so the out-of-range
case is left to the native return code. -/
theorem decompress_track_index_check :
    (∀ trackIndex : ℚ,
      decompressTrackIndexCheckThrows trackIndex = true ↔
        (trackIndex.den ≠ 1 ∨ trackIndex < 0)) ∧
    (∀ k : ℕ, decompressTrackIndexCheckThrows ((k : ℕ) : ℚ) = false) := by
  constructor
  · intro trackIndex
    unfold decompressTrackIndexCheckThrows jsGe decoderNumTracksField
    rcases Decidable.em (trackIndex.den = 1) with hden | hden <;>
      rcases Decidable.em (trackIndex < 0) with hneg | hneg <;>
        simp [hden, hneg]
  · intro k
    unfold decompressTrackIndexCheckThrows jsGe decoderNumTracksField
    simp [Rat.den_natCast]

/-- The one-time segment-head alignment of the decoder constructor,
src-js/decoder.js lines 73-80: alignmentOverhead = sbrk(0) & 0x15, and when
it is nonzero the break is advanced by 16 - alignmentOverhead; heapInitialSize
is the resulting break.  The mask written in the source is the hex literal
0x15 = 21, and the adjustment is computed in ℤ because 16 - alignmentOverhead
can be negative (the mask covers bit 4, so the overhead can exceed 16). -/
def alignSegmentHead (segmentHead : ℕ) : ℤ :=
  let alignmentOverhead : ℕ := segmentHead &&& 0x15
  if alignmentOverhead ≠ 0 then (segmentHead : ℤ) + (16 - (alignmentOverhead : ℤ))
  else (segmentHead : ℤ)

/-- C10 (code bug evidence): with the mask 0x15 = 0b10101 the alignment step
does not 16-align the base offset.  At segment head 8 the computed overhead is
8 & 0x15 = 0, no adjustment is made, and heapInitialSize stays 8, which is not
a multiple of 16 — contradicting the claim and the comment in the source
(make sure our segment head is aligned to 16 bytes). -/
theorem segment_head_alignment_bug :
    alignSegmentHead 8 = 8 ∧ ¬ ((16 : ℤ) ∣ alignSegmentHead 8) := by
  constructor
  · rfl
  · decide

/-- One WASMMemory object of the decoder arena
(src-js/wasm_memory.js): its byte offset and byte length inside the linear
memory, and the queued-for-free flag set by Decoder.queueFree. -/
structure WASMMemory where
  byteOffset : ℕ
  byteLength : ℕ
  isQueuedForFree : Bool
deriving DecidableEq

/-- A reference to a WASMMemory object: the identity of the wasmState it was
created by (`_wasmState`) and the index of the object itself.  Two references
are the same JS object exactly when both components agree. -/
structure MemRef where
  heapId : ℕ
  memId : ℕ
deriving DecidableEq

/-- The decoder module state (the `wasmState` singleton of
src-js/decoder.js) after its one-time load: heap bytes, every WASMMemory
object ever created (indexed by creation order), the heapAllocations list (in
allocation order), the heapFreeQueue, the initial heap size recorded by the
constructor, and the current break returned by sbrk(0).  The claims quantify
over operation sequences after the module is ready, so the not-ready error
paths are outside the embedding. -/
structure WasmState where
  heapId : ℕ
  heap : ℕ → ℕ
  mems : ℕ → WASMMemory
  heapAllocations : List ℕ
  heapFreeQueue : List ℕ
  heapInitialSize : ℕ
  brk : ℕ
  nextMemId : ℕ

/-- The rounding `(bufferSize + 15) & ~15` of Decoder.malloc (line 96).  On
the 32-bit WASM heap a buffer size is below 2^31, where the masked and equals
clearing the low four bits, written here arithmetically. -/
def pad16 (bufferSize : ℕ) : ℕ := (bufferSize + 15) - (bufferSize + 15) % 16

/-- Decoder.malloc (src-js/decoder.js lines 90-107): rounds the size, takes
the current break as the buffer offset (sbrk(bufferSizePadded) returns the
previous break and advances it), wraps the view in a fresh WASMMemory and
appends it to heapAllocations.  Returns the new state and the reference. -/
def malloc (s : WasmState) (bufferSize : ℕ) : WasmState × MemRef :=
  let bufferSizePadded := pad16 bufferSize
  let bufferOffset := s.brk
  let id := s.nextMemId
  let mem : WASMMemory := { byteOffset := bufferOffset, byteLength := bufferSizePadded,
                            isQueuedForFree := false }
  ({ s with
      brk := s.brk + bufferSizePadded
      mems := fun i => if i = id then mem else s.mems i
      heapAllocations := s.heapAllocations ++ [id]
      nextMemId := id + 1 },
   { heapId := s.heapId, memId := id })

/-- Decoder.queueFree (src-js/decoder.js lines 111-131): rejects a memory
object of a different wasmState, rejects one already queued for free, and
otherwise flags the object and pushes it on the free queue.  The result pairs
the state after the call with the error, if any; both error paths throw before
any mutation, so they return the state unchanged. -/
def queueFree (s : WasmState) (mem : MemRef) : WasmState × Option Err :=
  if mem.heapId ≠ s.heapId then (s, some .foreignHeap)
  else
    let m := s.mems mem.memId
    if m.isQueuedForFree then (s, some .doubleFree)
    else
      ({ s with
          mems := fun i => if i = mem.memId then { m with isQueuedForFree := true } else s.mems i
          heapFreeQueue := s.heapFreeQueue ++ [mem.memId] },
       Option.none)

/-- The bytes of the heap region [off, off + len). -/
def readBytes (heap : ℕ → ℕ) (off len : ℕ) : List ℕ :=
  (List.range len).map fun i => heap (off + i)

/-- Overwrite the heap region starting at off with the given bytes
(`heap.set(bytes, off)`). -/
def writeBytes (heap : ℕ → ℕ) (off : ℕ) (bytes : List ℕ) : ℕ → ℕ :=
  fun a => if off ≤ a ∧ a < off + bytes.length then bytes.getD (a - off) 0 else heap a

/-- The WASMMemory `array` getter (src-js/wasm_memory.js lines 36-49) for a
memory object of this arena: it throws once the object has been queued for
free, and otherwise yields the view of the current heap at the recorded offset
and length (rebinding the cached view if the heap identity changed — the
embedding always reads through the current heap, which is exactly what the
rebound view shows).  The getter never touches heapAllocations or the free
queue. -/
def memArray (s : WasmState) (memId : ℕ) : Except Err (List ℕ) :=
  let m := s.mems memId
  if m.isQueuedForFree then .error .useAfterFree
  else .ok (readBytes s.heap m.byteOffset m.byteLength)

/-- The loop accumulator of Decoder.garbageCollect: the heap being rewritten,
the object table with updated offsets, the next free offset, and the
liveHeapAllocations list built so far. -/
structure GcAcc where
  heap : ℕ → ℕ
  mems : ℕ → WASMMemory
  heapOffset : ℕ
  live : List ℕ

/-- The forEach body of Decoder.garbageCollect (lines 148-165): skip objects
queued for free; copy a live object down to the current heapOffset when its
offset differs (reading its bytes through `mem.array` first, as
`heap.set(mem.array, heapOffset)` does) and update its byteOffset; collect it
in liveHeapAllocations and advance heapOffset by its length. -/
def gcLoop (acc : GcAcc) : List ℕ → GcAcc
  | [] => acc
  | id :: rest =>
    let m := acc.mems id
    if m.isQueuedForFree then gcLoop acc rest
    else
      let acc' : GcAcc :=
        if m.byteOffset ≠ acc.heapOffset then
          { heap := writeBytes acc.heap acc.heapOffset
              (readBytes acc.heap m.byteOffset m.byteLength)
            mems := fun i => if i = id then { m with byteOffset := acc.heapOffset }
              else acc.mems i
            heapOffset := acc.heapOffset + m.byteLength
            live := acc.live ++ [id] }
        else
          { heap := acc.heap, mems := acc.mems,
            heapOffset := acc.heapOffset + m.byteLength, live := acc.live ++ [id] }
      gcLoop acc' rest

/-- Decoder.garbageCollect (src-js/decoder.js lines 134-177): returns at once
when the free queue is empty; otherwise repacks the live allocations from
heapInitialSize upward, installs the rebuilt liveHeapAllocations list, clears
the free queue and shrinks the break to the new contiguous end (the final
sbrk call).  The trailing rebind loop only refreshes cached views and does
not change the embedded state. -/
def garbageCollect (s : WasmState) : WasmState :=
  if s.heapFreeQueue.length = 0 then s
  else
    let acc := gcLoop { heap := s.heap, mems := s.mems,
                        heapOffset := s.heapInitialSize, live := [] } s.heapAllocations
    { s with
        heap := acc.heap
        mems := acc.mems
        heapAllocations := acc.live
        heapFreeQueue := []
        brk := acc.heapOffset }

/-- One arena operation of the claim: malloc with a byte size, queueFree of a
memory reference, or garbageCollect. -/
inductive ArenaOp where
  | malloc (bufferSize : ℕ)
  | queueFree (mem : MemRef)
  | garbageCollect
deriving DecidableEq

/-- Apply one operation, keeping the state component of its result. -/
def arenaStep (s : WasmState) : ArenaOp → WasmState
  | ArenaOp.malloc n => (malloc s n).1
  | ArenaOp.queueFree mem => (queueFree s mem).1
  | ArenaOp.garbageCollect => garbageCollect s

/-- Run a sequence of arena operations. -/
def arenaRun (s : WasmState) : List ArenaOp → WasmState
  | [] => s
  | op :: rest => arenaRun (arenaStep s op) rest

/-- A queueFree argument is a WASMMemory object some decoder created: when it
belongs to this wasmState, its index is one malloc has already handed out.
This rules out fabricated references, which have no JS counterpart. -/
def wfOp (s : WasmState) : ArenaOp → Bool
  | ArenaOp.queueFree mem => mem.heapId ≠ s.heapId || mem.memId < s.nextMemId
  | _ => true

/-- Well-formedness of an operation sequence from a given state. -/
def wfTrace (s : WasmState) : List ArenaOp → Bool
  | [] => true
  | op :: rest => wfOp s op && wfTrace (arenaStep s op) rest

/-- The state of the arena right after the decoder constructor finished
loading the module: no allocations, no queued frees, break at the recorded
initial heap size. -/
def initState (heapId baseOffset : ℕ) (heap0 : ℕ → ℕ) (mems0 : ℕ → WASMMemory) : WasmState :=
  { heapId := heapId, heap := heap0, mems := mems0, heapAllocations := [],
    heapFreeQueue := [], heapInitialSize := baseOffset, brk := baseOffset, nextMemId := 0 }

/-- The (offset, length) ranges of the heapAllocations list, in order. -/
def layoutOf (mems : ℕ → WASMMemory) (ids : List ℕ) : List (ℕ × ℕ) :=
  ids.map fun id => ((mems id).byteOffset, (mems id).byteLength)

/-- The ranges tile the address space contiguously from p: each range starts
exactly where the previous one ended — no gaps and no overlaps. -/
def tilesFrom (p : ℕ) : List (ℕ × ℕ) → Bool
  | [] => true
  | (o, len) :: rest => (o = p : Bool) && tilesFrom (p + len) rest

/-- The end of a contiguous run of ranges starting at p. -/
def endOff (p : ℕ) : List (ℕ × ℕ) → ℕ
  | [] => p
  | (_, len) :: rest => endOff (p + len) rest

/-- The arena invariant maintained by every reachable state: the allocation
list tiles [heapInitialSize, brk) contiguously in allocation order; ids are
distinct, below nextMemId, and an allocated object is flagged queued-for-free
exactly when it sits in the free queue; objects no longer in the allocation
list but already handed out stay flagged. -/
def ArenaInv (s : WasmState) : Prop :=
  tilesFrom s.heapInitialSize (layoutOf s.mems s.heapAllocations) = true ∧
  endOff s.heapInitialSize (layoutOf s.mems s.heapAllocations) = s.brk ∧
  s.heapAllocations.Nodup ∧
  (∀ id ∈ s.heapAllocations, id < s.nextMemId) ∧
  (∀ id ∈ s.heapFreeQueue, id < s.nextMemId) ∧
  (∀ id ∈ s.heapAllocations, ((s.mems id).isQueuedForFree = true ↔ id ∈ s.heapFreeQueue)) ∧
  (∀ id, id < s.nextMemId → id ∉ s.heapAllocations → (s.mems id).isQueuedForFree = true)

lemma readBytes_length (heap : ℕ → ℕ) (off len : ℕ) : (readBytes heap off len).length = len := by
  unfold readBytes
  rw [List.length_map, List.length_range]

lemma readBytes_congr {h1 h2 : ℕ → ℕ} (off len : ℕ)
    (h : ∀ a, off ≤ a → a < off + len → h1 a = h2 a) :
    readBytes h1 off len = readBytes h2 off len := by
  unfold readBytes
  apply List.map_congr_left
  intro i hi
  rw [List.mem_range] at hi
  exact h (off + i) (Nat.le_add_right _ _) (by omega)

lemma writeBytes_out {heap : ℕ → ℕ} {off : ℕ} {bytes : List ℕ} {a : ℕ}
    (h : a < off ∨ off + bytes.length ≤ a) :
    writeBytes heap off bytes a = heap a := by
  unfold writeBytes
  rw [if_neg (by omega)]

lemma readBytes_writeBytes_self (heap : ℕ → ℕ) (off : ℕ) (bytes : List ℕ) :
    readBytes (writeBytes heap off bytes) off bytes.length = bytes := by
  apply List.ext_getElem
  · rw [readBytes_length]
  · intro i hi hlen
    rw [readBytes_length] at hi
    unfold readBytes
    rw [List.getElem_map, List.getElem_range]
    unfold writeBytes
    rw [if_pos (by omega)]
    have : off + i - off = i := by omega
    rw [this, List.getD_eq_getElem bytes 0 hlen]

lemma readBytes_writeBytes_below (heap : ℕ → ℕ) (off : ℕ) (bytes : List ℕ) (o l : ℕ)
    (h : o + l ≤ off) :
    readBytes (writeBytes heap off bytes) o l = readBytes heap o l := by
  apply readBytes_congr
  intro a ha1 ha2
  exact writeBytes_out (Or.inl (by omega))

lemma endOff_append (p : ℕ) (l1 l2 : List (ℕ × ℕ)) :
    endOff p (l1 ++ l2) = endOff (endOff p l1) l2 := by
  induction l1 generalizing p with
  | nil => rfl
  | cons hd tl ih =>
    rcases hd with ⟨o, len⟩
    rw [List.cons_append]
    simp only [endOff]
    exact ih (p + len)

lemma endOff_ge (p : ℕ) (l : List (ℕ × ℕ)) : p ≤ endOff p l := by
  induction l generalizing p with
  | nil => exact Nat.le_refl p
  | cons hd tl ih =>
    rcases hd with ⟨o, len⟩
    unfold endOff
    exact Nat.le_trans (Nat.le_add_right p len) (ih (p + len))

lemma tilesFrom_append (p : ℕ) (l1 l2 : List (ℕ × ℕ)) :
    tilesFrom p (l1 ++ l2) = (tilesFrom p l1 && tilesFrom (endOff p l1) l2) := by
  induction l1 generalizing p with
  | nil => unfold tilesFrom endOff; simp
  | cons hd tl ih =>
    rcases hd with ⟨o, len⟩
    rw [List.cons_append]
    simp only [tilesFrom, endOff]
    rw [ih (p + len), Bool.and_assoc]

lemma tiles_range {p : ℕ} {l : List (ℕ × ℕ)} (h : tilesFrom p l = true) :
    ∀ pr ∈ l, p ≤ pr.1 ∧ pr.1 + pr.2 ≤ endOff p l := by
  induction l generalizing p with
  | nil => intro pr hpr; exact absurd hpr (List.not_mem_nil pr)
  | cons hd tl ih =>
    rcases hd with ⟨o, len⟩
    unfold tilesFrom at h
    rw [Bool.and_eq_true, decide_eq_true_eq] at h
    intro pr hpr
    rcases List.mem_cons.mp hpr with hpr | hpr
    · subst hpr
      unfold endOff
      exact ⟨Nat.le_of_eq h.1.symm, by
        rw [h.1]
        exact endOff_ge (p + len) tl⟩
    · have := ih h.2 pr hpr
      unfold endOff
      exact ⟨by omega, this.2⟩

lemma layoutOf_congr {m1 m2 : ℕ → WASMMemory} (ids : List ℕ)
    (h : ∀ id ∈ ids, m1 id = m2 id) : layoutOf m1 ids = layoutOf m2 ids := by
  unfold layoutOf
  apply List.map_congr_left
  intro id hid
  rw [h id hid]

lemma layoutOf_append (mems : ℕ → WASMMemory) (l1 l2 : List ℕ) :
    layoutOf mems (l1 ++ l2) = layoutOf mems l1 ++ layoutOf mems l2 := by
  unfold layoutOf
  exact List.map_append _ l1 l2

/-- The per-object facts the compaction loop preserves about a live
allocation: length and flag unchanged, and the bytes readable at its (possibly
updated) offset are the bytes it held in the original heap. -/
def GcPreserved (h0 : ℕ → ℕ) (mems0 : ℕ → WASMMemory) (heap : ℕ → ℕ)
    (mems : ℕ → WASMMemory) (id : ℕ) : Prop :=
  (mems id).byteLength = (mems0 id).byteLength ∧
  (mems id).isQueuedForFree = (mems0 id).isQueuedForFree ∧
  readBytes heap (mems id).byteOffset (mems id).byteLength =
    readBytes h0 (mems0 id).byteOffset (mems0 id).byteLength

lemma gcLoop_flag (rest : List ℕ) (acc : GcAcc) (i : ℕ) :
    ((gcLoop acc rest).mems i).isQueuedForFree = (acc.mems i).isQueuedForFree := by
  induction rest generalizing acc with
  | nil => rfl
  | cons id tl ih =>
    simp only [gcLoop]
    by_cases hq : (acc.mems id).isQueuedForFree
    · rw [if_pos hq]
      exact ih acc
    · rw [if_neg hq]
      by_cases hmove : (acc.mems id).byteOffset ≠ acc.heapOffset
      · rw [if_pos hmove]
        rw [ih _]
        by_cases hi : i = id
        · subst hi; simp [hq]
        · simp [hi]
      · rw [if_neg hmove]
        exact ih _

lemma gcLoop_spec (h0 : ℕ → ℕ) (mems0 : ℕ → WASMMemory) (base : ℕ) :
    ∀ (rest : List ℕ) (acc : GcAcc) (p : ℕ),
    rest.Nodup →
    tilesFrom p (layoutOf mems0 rest) = true →
    acc.heapOffset ≤ p →
    (∀ a, p ≤ a → acc.heap a = h0 a) →
    (∀ id, id ∉ acc.live → acc.mems id = mems0 id) →
    (∀ id ∈ rest, id ∉ acc.live) →
    tilesFrom base (layoutOf acc.mems acc.live) = true →
    endOff base (layoutOf acc.mems acc.live) = acc.heapOffset →
    (∀ id ∈ acc.live, GcPreserved h0 mems0 acc.heap acc.mems id) →
    (gcLoop acc rest).live =
        acc.live ++ rest.filter (fun id => !(mems0 id).isQueuedForFree) ∧
    tilesFrom base (layoutOf (gcLoop acc rest).mems (gcLoop acc rest).live) = true ∧
    endOff base (layoutOf (gcLoop acc rest).mems (gcLoop acc rest).live) =
        (gcLoop acc rest).heapOffset ∧
    (∀ id, id ∉ (gcLoop acc rest).live → (gcLoop acc rest).mems id = mems0 id) ∧
    (∀ id ∈ (gcLoop acc rest).live,
        GcPreserved h0 mems0 (gcLoop acc rest).heap (gcLoop acc rest).mems id) := by
  intro rest
  induction rest with
  | nil =>
    intro acc p _ _ _ _ huntouched _ htilesL hendL hpres
    simp only [gcLoop, List.filter_nil, List.append_nil]
    exact ⟨trivial, htilesL, hendL, huntouched, hpres⟩
  | cons id rest' ih =>
    intro acc p hnodup htiles hle hagree huntouched hdisj htilesL hendL hpres
    have hid_notlive : id ∉ acc.live := hdisj id (List.mem_cons_self id rest')
    have hmem_id : acc.mems id = mems0 id := huntouched id hid_notlive
    simp only [layoutOf, List.map_cons, tilesFrom, Bool.and_eq_true, decide_eq_true_eq] at htiles
    obtain ⟨hoff_eq, htiles'⟩ := htiles
    have htiles'' : tilesFrom (p + (mems0 id).byteLength) (layoutOf mems0 rest') = true :=
      htiles'
    have hnodup' : rest'.Nodup := hnodup.of_cons
    have hid_not_rest : id ∉ rest' := (List.nodup_cons.mp hnodup).1
    simp only [gcLoop]
    by_cases hq : (acc.mems id).isQueuedForFree
    · rw [if_pos hq]
      have hq0 : (mems0 id).isQueuedForFree = true := by rw [← hmem_id]; exact hq
      have hfilter : (id :: rest').filter (fun i => !(mems0 i).isQueuedForFree) =
          rest'.filter (fun i => !(mems0 i).isQueuedForFree) := by
        rw [List.filter_cons_of_neg]
        simp [hq0]
      rw [hfilter]
      apply ih acc (p + (mems0 id).byteLength) hnodup' htiles''
      · omega
      · intro a ha
        exact hagree a (by omega)
      · exact huntouched
      · intro i hi
        exact hdisj i (List.mem_cons_of_mem id hi)
      · exact htilesL
      · exact hendL
      · exact hpres
    · rw [if_neg hq]
      have hq0 : (mems0 id).isQueuedForFree = false := by
        rw [← hmem_id]
        exact Bool.not_eq_true _ ▸ eq_false_of_ne_true hq
      have hfilter : (id :: rest').filter (fun i => !(mems0 i).isQueuedForFree) =
          id :: rest'.filter (fun i => !(mems0 i).isQueuedForFree) := by
        rw [List.filter_cons_of_pos]
        simp [hq0]
      rw [hfilter]
      have hrange_old : ∀ i ∈ acc.live, base ≤ (acc.mems i).byteOffset ∧
          (acc.mems i).byteOffset + (acc.mems i).byteLength ≤ acc.heapOffset := by
        intro i hi
        have hmemmap : ((acc.mems i).byteOffset, (acc.mems i).byteLength) ∈
            layoutOf acc.mems acc.live := by
          unfold layoutOf
          exact List.mem_map_of_mem _ hi
        have := tiles_range htilesL _ hmemmap
        rw [hendL] at this
        exact this
      -- facts shared by the two branches of the loop body
      have hlive_ne : ∀ i ∈ acc.live, i ≠ id := fun i hi hcontra => hid_notlive (hcontra ▸ hi)
      by_cases hmove : (acc.mems id).byteOffset ≠ acc.heapOffset
      · rw [if_pos hmove]
        set bytes := readBytes acc.heap (acc.mems id).byteOffset (acc.mems id).byteLength with hbytes
        set acc' : GcAcc :=
          { heap := writeBytes acc.heap acc.heapOffset bytes
            mems := fun i => if i = id then { acc.mems id with byteOffset := acc.heapOffset }
              else acc.mems i
            heapOffset := acc.heapOffset + (acc.mems id).byteLength
            live := acc.live ++ [id] } with hacc'
        have hbytes_len : bytes.length = (acc.mems id).byteLength := readBytes_length _ _ _
        have hbytes_h0 : bytes = readBytes h0 (mems0 id).byteOffset (mems0 id).byteLength := by
          rw [hbytes, hmem_id, hoff_eq]
          exact readBytes_congr _ _ fun a ha _ => hagree a ha
        have hlay_old : layoutOf acc'.mems acc.live = layoutOf acc.mems acc.live := by
          apply layoutOf_congr
          intro i hi
          simp only [hacc']
          rw [if_neg (hlive_ne i hi)]
        have hlay' : layoutOf acc'.mems acc'.live =
            layoutOf acc.mems acc.live ++
              [(acc.heapOffset, (acc.mems id).byteLength)] := by
          simp only [hacc']
          rw [layoutOf_append]
          rw [show layoutOf (fun i => if i = id then
              { acc.mems id with byteOffset := acc.heapOffset } else acc.mems i) acc.live =
              layoutOf acc.mems acc.live from hlay_old]
          unfold layoutOf
          simp
        have hres := ih acc' (p + (mems0 id).byteLength) hnodup' htiles''
          (by
            simp only [hacc']
            have : (acc.mems id).byteLength = (mems0 id).byteLength := by rw [hmem_id]
            omega)
          (by
            intro a ha
            simp only [hacc']
            rw [writeBytes_out (Or.inr (by
              rw [hbytes_len]
              have : (acc.mems id).byteLength = (mems0 id).byteLength := by rw [hmem_id]
              omega))]
            exact hagree a (by omega))
          (by
            intro i hi
            simp only [hacc'] at hi ⊢
            rw [List.mem_append] at hi
            push_neg at hi
            have hne : i ≠ id := by
              intro hcontra
              exact hi.2 (hcontra ▸ List.mem_singleton_self id)
            rw [if_neg hne]
            exact huntouched i hi.1)
          (by
            intro i hi
            simp only [hacc', List.mem_append]
            push_neg
            refine ⟨hdisj i (List.mem_cons_of_mem id hi), ?_⟩
            intro hcontra
            rw [List.mem_singleton] at hcontra
            exact hid_not_rest (hcontra ▸ hi))
          (by
            rw [hlay', tilesFrom_append, Bool.and_eq_true]
            refine ⟨htilesL, ?_⟩
            rw [hendL]
            simp [tilesFrom])
          (by
            rw [hlay', endOff_append, hendL]
            simp only [hacc', endOff])
          (by
            intro i hi
            simp only [hacc', List.mem_append] at hi
            rcases hi with hi | hi
            · obtain ⟨hlen_i, hflag_i, hbytes_i⟩ := hpres i hi
              have hne : i ≠ id := hlive_ne i hi
              refine ⟨?_, ?_, ?_⟩
              · simp only [hacc']; rw [if_neg hne]; exact hlen_i
              · simp only [hacc']; rw [if_neg hne]; exact hflag_i
              · simp only [hacc']
                rw [if_neg hne]
                rw [readBytes_writeBytes_below _ _ _ _ _ (hrange_old i hi).2]
                exact hbytes_i
            · rw [List.mem_singleton] at hi
              subst hi
              refine ⟨?_, ?_, ?_⟩
              · simp only [hacc']
                simp [hmem_id]
              · simp only [hacc']
                simp [hmem_id]
              · simp only [hacc']
                show readBytes (writeBytes acc.heap acc.heapOffset bytes) acc.heapOffset
                    (acc.mems i).byteLength = _
                rw [← hbytes_len, readBytes_writeBytes_self]
                exact hbytes_h0)
        obtain ⟨hl, ht, he, hu, hp2⟩ := hres
        refine ⟨?_, ht, he, hu, hp2⟩
        rw [hl]
        simp only [hacc', List.append_assoc, List.singleton_append]
      · rw [if_neg hmove]
        push_neg at hmove
        set acc' : GcAcc :=
          { heap := acc.heap, mems := acc.mems,
            heapOffset := acc.heapOffset + (acc.mems id).byteLength,
            live := acc.live ++ [id] } with hacc'
        have hlay' : layoutOf acc'.mems acc'.live =
            layoutOf acc.mems acc.live ++
              [(acc.heapOffset, (acc.mems id).byteLength)] := by
          simp only [hacc']
          rw [layoutOf_append]
          unfold layoutOf
          simp [hmove]
        have hres := ih acc' (p + (mems0 id).byteLength) hnodup' htiles''
          (by
            simp only [hacc']
            have : (acc.mems id).byteLength = (mems0 id).byteLength := by rw [hmem_id]
            omega)
          (by
            intro a ha
            simp only [hacc']
            exact hagree a (by omega))
          (by
            intro i hi
            simp only [hacc'] at hi ⊢
            rw [List.mem_append] at hi
            push_neg at hi
            exact huntouched i hi.1)
          (by
            intro i hi
            simp only [hacc', List.mem_append]
            push_neg
            refine ⟨hdisj i (List.mem_cons_of_mem id hi), ?_⟩
            intro hcontra
            rw [List.mem_singleton] at hcontra
            exact hid_not_rest (hcontra ▸ hi))
          (by
            rw [hlay', tilesFrom_append, Bool.and_eq_true]
            refine ⟨htilesL, ?_⟩
            rw [hendL]
            simp [tilesFrom])
          (by
            rw [hlay', endOff_append, hendL]
            simp only [hacc', endOff])
          (by
            intro i hi
            simp only [hacc', List.mem_append] at hi
            rcases hi with hi | hi
            · exact hpres i hi
            · rw [List.mem_singleton] at hi
              subst hi
              refine ⟨by rw [hmem_id], by rw [hmem_id], ?_⟩
              rw [hmem_id, hoff_eq]
              exact readBytes_congr _ _ fun a ha _ => hagree a ha)
        obtain ⟨hl, ht, he, hu, hp2⟩ := hres
        refine ⟨?_, ht, he, hu, hp2⟩
        rw [hl]
        simp only [hacc', List.append_assoc, List.singleton_append]

lemma layoutOf_congr_proj {m1 m2 : ℕ → WASMMemory} (ids : List ℕ)
    (h : ∀ id ∈ ids, (m1 id).byteOffset = (m2 id).byteOffset ∧
      (m1 id).byteLength = (m2 id).byteLength) :
    layoutOf m1 ids = layoutOf m2 ids := by
  unfold layoutOf
  apply List.map_congr_left
  intro id hid
  rw [(h id hid).1, (h id hid).2]

lemma pad16_eq (n : ℕ) : pad16 n = 16 * ((n + 15) / 16) := by
  unfold pad16
  omega

lemma alloc_end_le_brk {s : WasmState} (hinv : ArenaInv s) :
    ∀ id ∈ s.heapAllocations,
      (s.mems id).byteOffset + (s.mems id).byteLength ≤ s.brk := by
  intro id hid
  obtain ⟨htiles, hend, _⟩ := hinv
  have hmemmap : ((s.mems id).byteOffset, (s.mems id).byteLength) ∈
      layoutOf s.mems s.heapAllocations := by
    unfold layoutOf
    exact List.mem_map_of_mem _ hid
  have := tiles_range htiles _ hmemmap
  rw [hend] at this
  exact this.2

lemma malloc_spec (s : WasmState) (n : ℕ) (hinv : ArenaInv s) :
    ArenaInv (malloc s n).1 ∧
    ((malloc s n).1.mems (malloc s n).2.memId).byteLength = pad16 n ∧
    ((malloc s n).1.mems (malloc s n).2.memId).byteOffset = s.brk ∧
    (malloc s n).1.heapAllocations = s.heapAllocations ++ [(malloc s n).2.memId] := by
  obtain ⟨htiles, hend, hnodup, hbound, hqbound, hflagq, hgone⟩ := hinv
  have hfresh : s.nextMemId ∉ s.heapAllocations := fun hmem =>
    Nat.lt_irrefl _ (hbound _ hmem)
  have hproject : ∀ id ∈ s.heapAllocations,
      ((malloc s n).1.mems id) = s.mems id := by
    intro id hid
    have : id ≠ s.nextMemId := fun hcontra => hfresh (hcontra ▸ hid)
    simp only [malloc]
    rw [if_neg this]
  have hlay : layoutOf (malloc s n).1.mems s.heapAllocations =
      layoutOf s.mems s.heapAllocations :=
    layoutOf_congr _ hproject
  refine ⟨⟨?_, ?_, ?_, ?_, ?_, ?_, ?_⟩, ?_, ?_, ?_⟩
  · show tilesFrom s.heapInitialSize
      (layoutOf (malloc s n).1.mems (s.heapAllocations ++ [s.nextMemId])) = true
    rw [layoutOf_append, hlay, tilesFrom_append, Bool.and_eq_true]
    refine ⟨htiles, ?_⟩
    rw [hend]
    have : (malloc s n).1.mems s.nextMemId =
        { byteOffset := s.brk, byteLength := pad16 n, isQueuedForFree := false } := by
      simp [malloc]
    unfold layoutOf
    simp [this, tilesFrom]
  · show endOff s.heapInitialSize
      (layoutOf (malloc s n).1.mems (s.heapAllocations ++ [s.nextMemId])) = s.brk + pad16 n
    rw [layoutOf_append, hlay, endOff_append, hend]
    have : (malloc s n).1.mems s.nextMemId =
        { byteOffset := s.brk, byteLength := pad16 n, isQueuedForFree := false } := by
      simp [malloc]
    unfold layoutOf
    simp [this, endOff]
  · show (s.heapAllocations ++ [s.nextMemId]).Nodup
    rw [List.nodup_append]
    exact ⟨hnodup, List.nodup_singleton _, by
      intro a ha hb
      rw [List.mem_singleton] at hb
      exact hfresh (hb ▸ ha)⟩
  · intro id hid
    show id < s.nextMemId + 1
    replace hid : id ∈ s.heapAllocations ++ [s.nextMemId] := hid
    rw [List.mem_append] at hid
    rcases hid with hid | hid
    · exact Nat.lt_succ_of_lt (hbound id hid)
    · rw [List.mem_singleton] at hid
      omega
  · intro id hid
    show id < s.nextMemId + 1
    exact Nat.lt_succ_of_lt (hqbound id hid)
  · intro id hid
    show ((malloc s n).1.mems id).isQueuedForFree = true ↔ id ∈ s.heapFreeQueue
    replace hid : id ∈ s.heapAllocations ++ [s.nextMemId] := hid
    rw [List.mem_append] at hid
    rcases hid with hid | hid
    · rw [hproject id hid]
      exact hflagq id hid
    · rw [List.mem_singleton] at hid
      subst hid
      have : (malloc s n).1.mems s.nextMemId =
          { byteOffset := s.brk, byteLength := pad16 n, isQueuedForFree := false } := by
        simp [malloc]
      rw [this]
      simp only [Bool.false_eq_true, false_iff]
      intro hcontra
      exact Nat.lt_irrefl _ (hqbound _ hcontra)
  · intro id hlt hnot
    show ((malloc s n).1.mems id).isQueuedForFree = true
    have hlt' : id < s.nextMemId := by
      rcases Nat.lt_succ_iff_lt_or_eq.mp hlt with h | h
      · exact h
      · exact absurd (h ▸ List.mem_append_right s.heapAllocations
          (List.mem_singleton_self s.nextMemId)) hnot
    have hne : id ≠ s.nextMemId := Nat.ne_of_lt hlt'
    have : (malloc s n).1.mems id = s.mems id := by
      simp only [malloc]
      rw [if_neg hne]
    rw [this]
    exact hgone id hlt' fun hmem => hnot (List.mem_append_left _ hmem)
  · simp [malloc]
  · simp [malloc]
  · rfl

lemma queueFree_spec (s : WasmState) (mem : MemRef) (hinv : ArenaInv s)
    (hwf : wfOp s (ArenaOp.queueFree mem) = true) :
    ArenaInv (queueFree s mem).1 := by
  obtain ⟨htiles, hend, hnodup, hbound, hqbound, hflagq, hgone⟩ := hinv
  unfold queueFree
  by_cases hforeign : mem.heapId ≠ s.heapId
  · rw [if_pos hforeign]
    exact ⟨htiles, hend, hnodup, hbound, hqbound, hflagq, hgone⟩
  · rw [if_neg hforeign]
    by_cases hq : (s.mems mem.memId).isQueuedForFree
    · rw [if_pos hq]
      exact ⟨htiles, hend, hnodup, hbound, hqbound, hflagq, hgone⟩
    · rw [if_neg hq]
      push_neg at hforeign
      have hwf' : mem.memId < s.nextMemId := by
        unfold wfOp at hwf
        rw [Bool.or_eq_true] at hwf
        rcases hwf with hwf | hwf
        · rw [decide_eq_true_eq] at hwf
          exact absurd hforeign hwf
        · rw [decide_eq_true_eq] at hwf
          exact hwf
      have hproj : ∀ id,
          ((if id = mem.memId then { s.mems mem.memId with isQueuedForFree := true }
            else s.mems id) : WASMMemory).byteOffset = (s.mems id).byteOffset ∧
          ((if id = mem.memId then { s.mems mem.memId with isQueuedForFree := true }
            else s.mems id) : WASMMemory).byteLength = (s.mems id).byteLength := by
        intro id
        by_cases hid : id = mem.memId
        · subst hid; simp
        · rw [if_neg hid]
          exact ⟨rfl, rfl⟩
      have hlay : layoutOf (fun id => if id = mem.memId then
          { s.mems mem.memId with isQueuedForFree := true } else s.mems id)
          s.heapAllocations = layoutOf s.mems s.heapAllocations :=
        layoutOf_congr_proj _ fun id _ => hproj id
      refine ⟨?_, ?_, hnodup, hbound, ?_, ?_, ?_⟩
      · show tilesFrom s.heapInitialSize _ = true
        rw [hlay]
        exact htiles
      · show endOff s.heapInitialSize _ = s.brk
        rw [hlay]
        exact hend
      · intro id hid
        replace hid : id ∈ s.heapFreeQueue ++ [mem.memId] := hid
        rw [List.mem_append] at hid
        rcases hid with hid | hid
        · exact hqbound id hid
        · rw [List.mem_singleton] at hid
          exact hid ▸ hwf'
      · intro id hid
        show (if id = mem.memId then _ else _ : WASMMemory).isQueuedForFree = true ↔
          id ∈ s.heapFreeQueue ++ [mem.memId]
        by_cases hcase : id = mem.memId
        · subst hcase
          rw [if_pos rfl]
          simp
        · rw [if_neg hcase, List.mem_append]
          rw [hflagq id hid]
          simp [hcase]
      · intro id hlt hnot
        show (if id = mem.memId then _ else _ : WASMMemory).isQueuedForFree = true
        by_cases hcase : id = mem.memId
        · subst hcase
          rw [if_pos rfl]
        · rw [if_neg hcase]
          exact hgone id hlt hnot

lemma garbageCollect_spec (s : WasmState) (hinv : ArenaInv s) :
    ArenaInv (garbageCollect s) ∧
    (garbageCollect s).heapAllocations =
      s.heapAllocations.filter (fun id => !(s.mems id).isQueuedForFree) ∧
    (∀ id ∈ (garbageCollect s).heapAllocations,
      ((garbageCollect s).mems id).isQueuedForFree = false ∧
      GcPreserved s.heap s.mems (garbageCollect s).heap (garbageCollect s).mems id) ∧
    (∀ id, ((garbageCollect s).mems id).isQueuedForFree = (s.mems id).isQueuedForFree) := by
  obtain ⟨htiles, hend, hnodup, hbound, hqbound, hflagq, hgone⟩ := hinv
  unfold garbageCollect
  by_cases hempty : s.heapFreeQueue.length = 0
  · rw [if_pos hempty]
    have hqnil : s.heapFreeQueue = [] := List.length_eq_zero.mp hempty
    have hallfalse : ∀ id ∈ s.heapAllocations, (s.mems id).isQueuedForFree = false := by
      intro id hid
      have := hflagq id hid
      rw [hqnil] at this
      simp at this
      exact this
    have hfilter : s.heapAllocations.filter (fun id => !(s.mems id).isQueuedForFree) =
        s.heapAllocations := by
      apply List.filter_eq_self.mpr
      intro id hid
      simp [hallfalse id hid]
    refine ⟨⟨htiles, hend, hnodup, hbound, hqbound, hflagq, hgone⟩, hfilter.symm, ?_, ?_⟩
    · intro id hid
      exact ⟨hallfalse id hid, rfl, rfl, rfl⟩
    · intro id
      rfl
  · rw [if_neg hempty]
    set acc0 : GcAcc := { heap := s.heap, mems := s.mems, heapOffset := s.heapInitialSize, live := ([] : List ℕ) } with hacc0
    have hspec := gcLoop_spec s.heap s.mems s.heapInitialSize s.heapAllocations
      acc0 s.heapInitialSize hnodup htiles (Nat.le_refl _) (fun a _ => rfl)
      (fun id _ => rfl) (fun id _ => List.not_mem_nil id)
      (by unfold layoutOf tilesFrom; simp [hacc0]) (by unfold layoutOf endOff; simp [hacc0])
      (fun id hid => absurd hid (List.not_mem_nil id))
    obtain ⟨hlive, htiles', hend', huntouched', hpres'⟩ := hspec
    rw [show acc0.live = ([] : List ℕ) from rfl, List.nil_append] at hlive
    set res := gcLoop acc0 s.heapAllocations with hres
    have hflag_all : ∀ i, (res.mems i).isQueuedForFree = (s.mems i).isQueuedForFree :=
      fun i => gcLoop_flag s.heapAllocations _ i
    have hlive_sub : ∀ id ∈ res.live, id ∈ s.heapAllocations := by
      intro id hid
      rw [hlive] at hid
      exact List.mem_of_mem_filter hid
    have hlive_flag : ∀ id ∈ res.live, (s.mems id).isQueuedForFree = false := by
      intro id hid
      rw [hlive, List.mem_filter] at hid
      have := hid.2
      simp at this
      exact this
    refine ⟨⟨htiles', hend', ?_, ?_, ?_, ?_, ?_⟩, hlive, ?_, ?_⟩
    · show res.live.Nodup
      rw [hlive]
      exact hnodup.filter _
    · intro id hid
      exact hbound id (hlive_sub id hid)
    · intro id hid
      exact absurd hid (List.not_mem_nil id)
    · intro id hid
      show (res.mems id).isQueuedForFree = true ↔ id ∈ ([] : List ℕ)
      rw [hflag_all id, hlive_flag id hid]
      simp
    · intro id hlt hnot
      show (res.mems id).isQueuedForFree = true
      rw [hflag_all id]
      by_cases hmem : id ∈ s.heapAllocations
      · by_contra hcontra
        rw [Bool.not_eq_true] at hcontra
        apply hnot
        show id ∈ res.live
        rw [hlive, List.mem_filter]
        exact ⟨hmem, by simp [hcontra]⟩
      · exact hgone id hlt hmem
    · intro id hid
      refine ⟨?_, hpres' id hid⟩
      rw [hflag_all id]
      exact hlive_flag id hid
    · intro id
      exact hflag_all id

lemma arenaStep_inv (s : WasmState) (op : ArenaOp) (hinv : ArenaInv s)
    (hwf : wfOp s op = true) : ArenaInv (arenaStep s op) := by
  rcases op with n | mem | _
  · exact (malloc_spec s n hinv).1
  · exact queueFree_spec s mem hinv hwf
  · exact (garbageCollect_spec s hinv).1

lemma arenaRun_inv (tr : List ArenaOp) : ∀ (s : WasmState), ArenaInv s →
    wfTrace s tr = true → ArenaInv (arenaRun s tr) := by
  induction tr with
  | nil => intro s hinv _; exact hinv
  | cons op rest ih =>
    intro s hinv hwf
    unfold wfTrace at hwf
    rw [Bool.and_eq_true] at hwf
    exact ih (arenaStep s op) (arenaStep_inv s op hinv hwf.1) hwf.2

lemma initState_inv (heapId baseOffset : ℕ) (heap0 : ℕ → ℕ) (mems0 : ℕ → WASMMemory) :
    ArenaInv (initState heapId baseOffset heap0 mems0) := by
  refine ⟨rfl, rfl, List.nodup_nil, ?_, ?_, ?_, ?_⟩
  · intro id hid
    exact absurd hid (List.not_mem_nil id)
  · intro id hid
    exact absurd hid (List.not_mem_nil id)
  · intro id hid
    exact absurd hid (List.not_mem_nil id)
  · intro id hlt _
    exact absurd hlt (Nat.not_lt_zero id)

lemma arenaStep_const (s : WasmState) (op : ArenaOp) :
    (arenaStep s op).heapInitialSize = s.heapInitialSize ∧
    (arenaStep s op).heapId = s.heapId ∧
    s.nextMemId ≤ (arenaStep s op).nextMemId := by
  rcases op with n | mem | _
  · exact ⟨rfl, rfl, Nat.le_succ _⟩
  · simp only [arenaStep]
    unfold queueFree
    by_cases hforeign : mem.heapId ≠ s.heapId
    · rw [if_pos hforeign]
      exact ⟨rfl, rfl, Nat.le_refl _⟩
    · rw [if_neg hforeign]
      by_cases hq : (s.mems mem.memId).isQueuedForFree
      · rw [if_pos hq]
        exact ⟨rfl, rfl, Nat.le_refl _⟩
      · rw [if_neg hq]
        exact ⟨rfl, rfl, Nat.le_refl _⟩
  · simp only [arenaStep]
    unfold garbageCollect
    by_cases hempty : s.heapFreeQueue.length = 0
    · rw [if_pos hempty]
      exact ⟨rfl, rfl, Nat.le_refl _⟩
    · rw [if_neg hempty]
      exact ⟨rfl, rfl, Nat.le_refl _⟩

lemma arenaRun_const (tr : List ArenaOp) : ∀ (s : WasmState),
    (arenaRun s tr).heapInitialSize = s.heapInitialSize ∧
    (arenaRun s tr).heapId = s.heapId := by
  induction tr with
  | nil => intro s; exact ⟨rfl, rfl⟩
  | cons op rest ih =>
    intro s
    obtain ⟨h1, h2, _⟩ := arenaStep_const s op
    obtain ⟨h1', h2'⟩ := ih (arenaStep s op)
    exact ⟨h1'.trans h1, h2'.trans h2⟩

lemma arenaStep_flag_mono (s : WasmState) (op : ArenaOp) (id : ℕ)
    (hid : id < s.nextMemId) (hflag : (s.mems id).isQueuedForFree = true) :
    id < (arenaStep s op).nextMemId ∧
    ((arenaStep s op).mems id).isQueuedForFree = true := by
  rcases op with n | mem | _
  · refine ⟨Nat.lt_succ_of_lt hid, ?_⟩
    show ((if id = s.nextMemId then _ else s.mems id) : WASMMemory).isQueuedForFree = true
    rw [if_neg (Nat.ne_of_lt hid)]
    exact hflag
  · refine ⟨Nat.lt_of_lt_of_le hid (arenaStep_const s (ArenaOp.queueFree mem)).2.2, ?_⟩
    simp only [arenaStep]
    unfold queueFree
    by_cases hforeign : mem.heapId ≠ s.heapId
    · rw [if_pos hforeign]
      exact hflag
    · rw [if_neg hforeign]
      by_cases hq : (s.mems mem.memId).isQueuedForFree
      · rw [if_pos hq]
        exact hflag
      · rw [if_neg hq]
        show ((if id = mem.memId then _ else s.mems id) : WASMMemory).isQueuedForFree = true
        by_cases hcase : id = mem.memId
        · rw [if_pos hcase]
        · rw [if_neg hcase]
          exact hflag
  · refine ⟨Nat.lt_of_lt_of_le hid (arenaStep_const s ArenaOp.garbageCollect).2.2, ?_⟩
    simp only [arenaStep]
    unfold garbageCollect
    by_cases hempty : s.heapFreeQueue.length = 0
    · rw [if_pos hempty]
      exact hflag
    · rw [if_neg hempty]
      show ((gcLoop _ s.heapAllocations).mems id).isQueuedForFree = true
      rw [gcLoop_flag]
      exact hflag

lemma arenaRun_flag_mono (tr : List ArenaOp) : ∀ (s : WasmState) (id : ℕ),
    id < s.nextMemId → (s.mems id).isQueuedForFree = true →
    id < (arenaRun s tr).nextMemId ∧
    ((arenaRun s tr).mems id).isQueuedForFree = true := by
  induction tr with
  | nil => intro s id hid hflag; exact ⟨hid, hflag⟩
  | cons op rest ih =>
    intro s id hid hflag
    obtain ⟨h1, h2⟩ := arenaStep_flag_mono s op id hid hflag
    exact ih (arenaStep s op) id h1 h2

/-- C1: over every well-formed operation sequence from the initial arena
state: malloc(n) hands out an allocation whose byteLength — and the length of
the byte view its array getter resolves to — is n rounded up to a multiple of
16, appended at the end of the allocation list with its range starting after
the end of every existing allocation; and immediately after garbageCollect()
the allocation list is exactly the allocations that were not queued for free,
in allocation order, their ranges tiling the heap contiguously from the
arena's initial heap offset with no gaps and no overlaps, with byte lengths
unchanged. -/
theorem arena_layout_spec (heapId baseOffset : ℕ) (heap0 : ℕ → ℕ) (mems0 : ℕ → WASMMemory)
    (tr : List ArenaOp)
    (hwf : wfTrace (initState heapId baseOffset heap0 mems0) tr = true) :
    (∀ n : ℕ,
      ((malloc (arenaRun (initState heapId baseOffset heap0 mems0) tr) n).1.mems
          (malloc (arenaRun (initState heapId baseOffset heap0 mems0) tr) n).2.memId).byteLength
        = 16 * ((n + 15) / 16) ∧
      (∃ bs, memArray (malloc (arenaRun (initState heapId baseOffset heap0 mems0) tr) n).1
          (malloc (arenaRun (initState heapId baseOffset heap0 mems0) tr) n).2.memId = .ok bs ∧
        bs.length = 16 * ((n + 15) / 16)) ∧
      (malloc (arenaRun (initState heapId baseOffset heap0 mems0) tr) n).1.heapAllocations =
        (arenaRun (initState heapId baseOffset heap0 mems0) tr).heapAllocations ++
          [(malloc (arenaRun (initState heapId baseOffset heap0 mems0) tr) n).2.memId] ∧
      (∀ id ∈ (arenaRun (initState heapId baseOffset heap0 mems0) tr).heapAllocations,
        ((arenaRun (initState heapId baseOffset heap0 mems0) tr).mems id).byteOffset +
          ((arenaRun (initState heapId baseOffset heap0 mems0) tr).mems id).byteLength ≤
        ((malloc (arenaRun (initState heapId baseOffset heap0 mems0) tr) n).1.mems
          (malloc (arenaRun (initState heapId baseOffset heap0 mems0) tr) n).2.memId).byteOffset)) ∧
    (tilesFrom baseOffset
        (layoutOf (garbageCollect (arenaRun (initState heapId baseOffset heap0 mems0) tr)).mems
          (garbageCollect (arenaRun (initState heapId baseOffset heap0 mems0) tr)).heapAllocations)
        = true ∧
      (garbageCollect (arenaRun (initState heapId baseOffset heap0 mems0) tr)).heapAllocations =
        (arenaRun (initState heapId baseOffset heap0 mems0) tr).heapAllocations.filter
          (fun id => !((arenaRun (initState heapId baseOffset heap0 mems0) tr).mems id).isQueuedForFree) ∧
      (∀ id ∈ (garbageCollect (arenaRun (initState heapId baseOffset heap0 mems0) tr)).heapAllocations,
        ((garbageCollect (arenaRun (initState heapId baseOffset heap0 mems0) tr)).mems id).byteLength =
          ((arenaRun (initState heapId baseOffset heap0 mems0) tr).mems id).byteLength)) := by
  have hinv : ArenaInv (arenaRun (initState heapId baseOffset heap0 mems0) tr) :=
    arenaRun_inv tr _ (initState_inv heapId baseOffset heap0 mems0) hwf
  have hbase : (arenaRun (initState heapId baseOffset heap0 mems0) tr).heapInitialSize =
      baseOffset := (arenaRun_const tr _).1
  constructor
  · intro n
    obtain ⟨hinv', hlen, hoff, happ⟩ :=
      malloc_spec (arenaRun (initState heapId baseOffset heap0 mems0) tr) n hinv
    refine ⟨by rw [hlen, pad16_eq], ?_, happ, ?_⟩
    · refine ⟨readBytes (malloc (arenaRun (initState heapId baseOffset heap0 mems0) tr) n).1.heap
        ((malloc (arenaRun (initState heapId baseOffset heap0 mems0) tr) n).1.mems
          (malloc (arenaRun (initState heapId baseOffset heap0 mems0) tr) n).2.memId).byteOffset
        ((malloc (arenaRun (initState heapId baseOffset heap0 mems0) tr) n).1.mems
          (malloc (arenaRun (initState heapId baseOffset heap0 mems0) tr) n).2.memId).byteLength,
        ?_, ?_⟩
      · unfold memArray
        rw [if_neg (by
          show ¬((malloc _ n).1.mems (malloc _ n).2.memId).isQueuedForFree = true
          have : ((malloc (arenaRun (initState heapId baseOffset heap0 mems0) tr) n).1.mems
              (malloc (arenaRun (initState heapId baseOffset heap0 mems0) tr) n).2.memId) =
              { byteOffset := (arenaRun (initState heapId baseOffset heap0 mems0) tr).brk,
                byteLength := pad16 n, isQueuedForFree := false } := by
            simp [malloc]
          rw [this]
          simp)]
      · rw [readBytes_length, hlen, pad16_eq]
    · intro id hid
      rw [hoff]
      exact alloc_end_le_brk hinv id hid
  · obtain ⟨hinv', hfilter, hper, _⟩ :=
      garbageCollect_spec (arenaRun (initState heapId baseOffset heap0 mems0) tr) hinv
    have hbase' : (garbageCollect (arenaRun (initState heapId baseOffset heap0 mems0) tr)).heapInitialSize =
        baseOffset := by
      have := (arenaStep_const (arenaRun (initState heapId baseOffset heap0 mems0) tr)
        ArenaOp.garbageCollect).1
      rw [show arenaStep (arenaRun (initState heapId baseOffset heap0 mems0) tr)
        ArenaOp.garbageCollect = garbageCollect (arenaRun (initState heapId baseOffset heap0 mems0) tr)
        from rfl] at this
      rw [this, hbase]
    refine ⟨?_, hfilter, ?_⟩
    · have h := hinv'.1
      rw [hbase'] at h
      exact h
    · intro id hid
      exact ((hper id hid).2).1

/-- The concrete initial arena used by the arena witnesses: heap identity 0,
base offset 16, zeroed heap, blank object table. -/
def sampleInit : WasmState :=
  initState 0 16 (fun _ => 0)
    (fun _ => { byteOffset := 0, byteLength := 0, isQueuedForFree := false })

/-- Witness for C1: a run that allocates twice, frees the first allocation and
compacts. -/
theorem arena_layout_spec_witness :
    wfTrace sampleInit
      [ArenaOp.malloc 10, ArenaOp.queueFree { heapId := 0, memId := 0 },
        ArenaOp.malloc 20, ArenaOp.garbageCollect] = true ∧
    (tilesFrom 16
        (layoutOf (garbageCollect (arenaRun sampleInit
            [ArenaOp.malloc 10, ArenaOp.queueFree { heapId := 0, memId := 0 },
              ArenaOp.malloc 20, ArenaOp.garbageCollect])).mems
          (garbageCollect (arenaRun sampleInit
            [ArenaOp.malloc 10, ArenaOp.queueFree { heapId := 0, memId := 0 },
              ArenaOp.malloc 20, ArenaOp.garbageCollect])).heapAllocations) = true ∧
      (garbageCollect (arenaRun sampleInit
          [ArenaOp.malloc 10, ArenaOp.queueFree { heapId := 0, memId := 0 },
            ArenaOp.malloc 20, ArenaOp.garbageCollect])).heapAllocations =
        (arenaRun sampleInit
          [ArenaOp.malloc 10, ArenaOp.queueFree { heapId := 0, memId := 0 },
            ArenaOp.malloc 20, ArenaOp.garbageCollect]).heapAllocations.filter
          (fun id => !((arenaRun sampleInit
            [ArenaOp.malloc 10, ArenaOp.queueFree { heapId := 0, memId := 0 },
              ArenaOp.malloc 20, ArenaOp.garbageCollect]).mems id).isQueuedForFree) ∧
      (∀ id ∈ (garbageCollect (arenaRun sampleInit
          [ArenaOp.malloc 10, ArenaOp.queueFree { heapId := 0, memId := 0 },
            ArenaOp.malloc 20, ArenaOp.garbageCollect])).heapAllocations,
        ((garbageCollect (arenaRun sampleInit
            [ArenaOp.malloc 10, ArenaOp.queueFree { heapId := 0, memId := 0 },
              ArenaOp.malloc 20, ArenaOp.garbageCollect])).mems id).byteLength =
          ((arenaRun sampleInit
            [ArenaOp.malloc 10, ArenaOp.queueFree { heapId := 0, memId := 0 },
              ArenaOp.malloc 20, ArenaOp.garbageCollect]).mems id).byteLength)) :=
  ⟨by decide,
   (arena_layout_spec 0 16 (fun _ => 0)
      (fun _ => { byteOffset := 0, byteLength := 0, isQueuedForFree := false })
      [ArenaOp.malloc 10, ArenaOp.queueFree { heapId := 0, memId := 0 },
        ArenaOp.malloc 20, ArenaOp.garbageCollect] (by decide)).2⟩

/-- C2: an allocation that is live (not queued for free) when garbageCollect()
is called still resolves successfully afterwards, and the byte view it
resolves to holds exactly the bytes the allocation held immediately before the
call — read at its old offset in the old heap — even though the backing
region may have moved. -/
theorem gc_preserves_live_bytes (heapId baseOffset : ℕ) (heap0 : ℕ → ℕ)
    (mems0 : ℕ → WASMMemory) (tr : List ArenaOp)
    (hwf : wfTrace (initState heapId baseOffset heap0 mems0) tr = true) (id : ℕ)
    (hmem : id ∈ (arenaRun (initState heapId baseOffset heap0 mems0) tr).heapAllocations)
    (hlive : ((arenaRun (initState heapId baseOffset heap0 mems0) tr).mems id).isQueuedForFree
      = false) :
    memArray (garbageCollect (arenaRun (initState heapId baseOffset heap0 mems0) tr)) id =
      .ok (readBytes (arenaRun (initState heapId baseOffset heap0 mems0) tr).heap
        ((arenaRun (initState heapId baseOffset heap0 mems0) tr).mems id).byteOffset
        ((arenaRun (initState heapId baseOffset heap0 mems0) tr).mems id).byteLength) := by
  have hinv : ArenaInv (arenaRun (initState heapId baseOffset heap0 mems0) tr) :=
    arenaRun_inv tr _ (initState_inv heapId baseOffset heap0 mems0) hwf
  obtain ⟨_, hfilter, hper, _⟩ :=
    garbageCollect_spec (arenaRun (initState heapId baseOffset heap0 mems0) tr) hinv
  have hmem' : id ∈ (garbageCollect (arenaRun (initState heapId baseOffset heap0 mems0) tr)).heapAllocations := by
    rw [hfilter, List.mem_filter]
    exact ⟨hmem, by simp [hlive]⟩
  obtain ⟨hflag', hlen', _, hbytes'⟩ := hper id hmem'
  unfold memArray
  rw [if_neg (by rw [hflag']; exact Bool.false_ne_true)]
  rw [hbytes']

/-- Witness for C2: after allocating twice and freeing the first allocation,
the second allocation survives garbage collection with its bytes intact (it is
moved down from offset 32 to the base offset 16). -/
theorem gc_preserves_live_bytes_witness :
    wfTrace sampleInit
      [ArenaOp.malloc 5, ArenaOp.malloc 5, ArenaOp.queueFree { heapId := 0, memId := 0 }] = true ∧
    1 ∈ (arenaRun sampleInit
      [ArenaOp.malloc 5, ArenaOp.malloc 5, ArenaOp.queueFree { heapId := 0, memId := 0 }]).heapAllocations ∧
    ((arenaRun sampleInit
      [ArenaOp.malloc 5, ArenaOp.malloc 5, ArenaOp.queueFree { heapId := 0, memId := 0 }]).mems 1).isQueuedForFree = false ∧
    memArray (garbageCollect (arenaRun sampleInit
        [ArenaOp.malloc 5, ArenaOp.malloc 5, ArenaOp.queueFree { heapId := 0, memId := 0 }])) 1 =
      .ok (readBytes (arenaRun sampleInit
          [ArenaOp.malloc 5, ArenaOp.malloc 5, ArenaOp.queueFree { heapId := 0, memId := 0 }]).heap
        ((arenaRun sampleInit
          [ArenaOp.malloc 5, ArenaOp.malloc 5, ArenaOp.queueFree { heapId := 0, memId := 0 }]).mems 1).byteOffset
        ((arenaRun sampleInit
          [ArenaOp.malloc 5, ArenaOp.malloc 5, ArenaOp.queueFree { heapId := 0, memId := 0 }]).mems 1).byteLength) :=
  ⟨by decide, by decide, by decide,
   gc_preserves_live_bytes 0 16 (fun _ => 0)
     (fun _ => { byteOffset := 0, byteLength := 0, isQueuedForFree := false })
     [ArenaOp.malloc 5, ArenaOp.malloc 5, ArenaOp.queueFree { heapId := 0, memId := 0 }]
     (by decide) 1 (by decide) (by decide)⟩

/-- C3: resolving a memory object after it has been queued for free fails with
the use-after-free error no matter how many further arena operations run;
queueFree on an object already queued for free fails with the distinct
double-free error and returns the state — allocation list and free queue —
unchanged; and queueFree on a memory object belonging to a different arena
state fails with the distinct foreign-heap error, again leaving the state
unchanged.  (The array getter itself never touches the allocation list or the
free queue, so the failing resolve leaves them unchanged by construction.) -/
theorem arena_free_errors :
    (∀ (s : WasmState) (tr : List ArenaOp) (id : ℕ),
      id < s.nextMemId → (s.mems id).isQueuedForFree = true →
      memArray (arenaRun s tr) id = .error .useAfterFree) ∧
    (∀ (s : WasmState) (tr : List ArenaOp) (mem : MemRef),
      mem.heapId = s.heapId → mem.memId < s.nextMemId →
      (s.mems mem.memId).isQueuedForFree = true →
      queueFree (arenaRun s tr) mem = (arenaRun s tr, some Err.doubleFree)) ∧
    (∀ (s : WasmState) (mem : MemRef), mem.heapId ≠ s.heapId →
      queueFree s mem = (s, some Err.foreignHeap)) := by
  refine ⟨?_, ?_, ?_⟩
  · intro s tr id hid hflag
    obtain ⟨_, hflag'⟩ := arenaRun_flag_mono tr s id hid hflag
    unfold memArray
    rw [if_pos hflag']
  · intro s tr mem hheap hid hflag
    obtain ⟨_, hflag'⟩ := arenaRun_flag_mono tr s mem.memId hid hflag
    have hheap' : (arenaRun s tr).heapId = s.heapId := (arenaRun_const tr s).2
    unfold queueFree
    rw [if_neg (by rw [hheap', hheap]; exact fun h => h rfl)]
    rw [if_pos hflag']
  · intro s mem hheap
    unfold queueFree
    rw [if_pos hheap]

/-- The state after allocating one block and queueing it for free, used by the
C3 witness. -/
def queuedState : WasmState :=
  arenaRun sampleInit [ArenaOp.malloc 3, ArenaOp.queueFree { heapId := 0, memId := 0 }]

/-- Witness for C3: all three failure modes at concrete states — resolving a
queued-for-free allocation after a further garbageCollect, double-freeing it,
and queueing a foreign memory object. -/
theorem arena_free_errors_witness :
    (0 < queuedState.nextMemId ∧ (queuedState.mems 0).isQueuedForFree = true ∧
      memArray (arenaRun queuedState [ArenaOp.garbageCollect]) 0 = .error .useAfterFree) ∧
    ((0 : ℕ) = queuedState.heapId ∧
      queueFree (arenaRun queuedState []) { heapId := 0, memId := 0 } =
        (arenaRun queuedState [], some Err.doubleFree)) ∧
    ((1 : ℕ) ≠ queuedState.heapId ∧
      queueFree queuedState { heapId := 1, memId := 0 } =
        (queuedState, some Err.foreignHeap)) :=
  ⟨⟨by decide, by decide,
    arena_free_errors.1 queuedState [ArenaOp.garbageCollect] 0 (by decide) (by decide)⟩,
   ⟨by decide,
    arena_free_errors.2.1 queuedState [] { heapId := 0, memId := 0 } (by decide) (by decide)
      (by decide)⟩,
   ⟨by decide,
    arena_free_errors.2.2 queuedState { heapId := 1, memId := 0 } (by decide)⟩⟩
